import Mathlib

/-!
Verification of the ART optimizing-compiler backend sources:
the source-map encoding of `compiler/compiled_method.h` (`SrcMapElem`, `SrcMap`)
and the compilation control flow of
`compiler/optimizing/optimizing_compiler.cc` (`OptimizingCompiler::TryCompile`,
`OptimizingCompiler::Compile`).

Machine integers are embedded as `Nat` / `Int` with explicit wrapping modulo
`2^32` exactly where the C++ `uint32_t` / `int32_t` arithmetic can wrap.
-/

/-- The modulus of 32-bit machine arithmetic, `2^32`. -/
def U32MOD : Nat := 4294967296

/-- Half of the 32-bit modulus, `2^31`; the signed 32-bit range is
`[-U32HALF, U32HALF)`. -/
def U32HALF : Int := 2147483648

/-- Wrap an integer into the signed 32-bit range, mirroring `int32_t`
two's-complement wraparound. -/
def wrap32s (z : Int) : Int := (z + U32HALF) % (4294967296 : Int) - U32HALF

/-- Unsigned 32-bit subtraction `a - b` on `uint32_t` operands
(result congruent to `a - b` modulo `2^32`). -/
def sub32 (a b : Nat) : Nat := (a + (U32MOD - b % U32MOD)) % U32MOD

/-- Unsigned 32-bit addition on `uint32_t` operands. -/
def add32 (a b : Nat) : Nat := (a + b) % U32MOD

/-- `SrcMapElem` from `compiled_method.h`: a native-code offset `from_`
(`uint32_t`) paired with a source line `to_` (`int32_t`). -/
structure SrcMapElem where
  from_ : Nat
  to_ : Int
deriving DecidableEq, Repr, Inhabited

/-- The combined 64-bit comparison key of `SrcMapElem`, the C++
`(int64_t)(to_) << 32 | from_`; for in-range fields (`from_ < 2^32`) the C++
value equals `to_ * 2^32 + from_`. -/
def SrcMapElem.key (e : SrcMapElem) : Int := e.to_ * 4294967296 + e.from_

/-- An element whose fields are representable as `uint32_t` / `int32_t`,
as every C++ `SrcMapElem` is. -/
def SrcMapElem.Valid (e : SrcMapElem) : Prop :=
  e.from_ < U32MOD ∧ -U32HALF ≤ e.to_ ∧ e.to_ < U32HALF

instance : DecidablePred SrcMapElem.Valid := fun e => by
  unfold SrcMapElem.Valid
  infer_instance

/-- The strict order `SrcMapElem::operator<`: comparison of the combined keys,
source line primary, native offset secondary. -/
def keyLt (a b : SrcMapElem) : Prop := a.key < b.key

/-- The non-strict companion of `keyLt`, the order `std::sort` establishes in
`SrcMap::Arrange`. -/
def keyLe (a b : SrcMapElem) : Prop := a.key ≤ b.key

instance : DecidableRel keyLt := fun a b => by
  unfold keyLt
  infer_instance

instance : DecidableRel keyLe := fun a b => by
  unfold keyLe
  infer_instance

instance : IsTotal SrcMapElem keyLe := ⟨fun a b => Int.le_total a.key b.key⟩

instance : IsTrans SrcMapElem keyLe := ⟨fun _ _ _ h1 h2 => le_trans h1 h2⟩

instance : IsTrans SrcMapElem keyLt := ⟨fun _ _ _ h1 h2 => lt_trans h1 h2⟩

/-- The comparison used by `SrcMap::SortByFrom`: native offset only. -/
def fromLe (a b : SrcMapElem) : Prop := a.from_ ≤ b.from_

instance : DecidableRel fromLe := fun a b => by
  unfold fromLe
  infer_instance

instance : IsTotal SrcMapElem fromLe := ⟨fun a b => Nat.le_total a.from_ b.from_⟩

instance : IsTrans SrcMapElem fromLe := ⟨fun _ _ _ h1 h2 => le_trans h1 h2⟩

namespace SrcMap

/-- `SrcMap::SortByFrom`: sort the entries by native offset ascending
(`std::sort` with `lhs.from_ < rhs.from_`; `std::sort` leaves the order of
equal-offset entries unspecified, so any sort by offset is a faithful model). -/
def SortByFrom (l : List SrcMapElem) : List SrcMapElem :=
  l.insertionSort fromLe

/-- The trailing-trim loop of `SrcMap::DeltaFormat`: starting from the last
index, step downward while the entry's `from_` is `>= highest_pc`, never moving
past index `1`, then resize to keep indices `0..i`. Equivalently: keep the head
unconditionally, and drop from the tail its maximal trailing run of entries with
`from_ >= highest_pc`. -/
def trimHighest (highest_pc : Nat) : List SrcMapElem → List SrcMapElem
  | [] => []
  | a :: rest =>
      a :: (rest.reverse.dropWhile fun e => decide (highest_pc ≤ e.from_)).reverse

/-- Elementwise subtraction used by the delta-conversion loop:
`from_` is `uint32_t` subtraction, `to_` is `int32_t` subtraction. -/
def SrcMapElem.sub (e s : SrcMapElem) : SrcMapElem :=
  { from_ := sub32 e.from_ s.from_, to_ := wrap32s (e.to_ - s.to_) }

/-- Elementwise 32-bit addition, the inverse direction used when
prefix-summing a delta stream back to absolute entries. -/
def SrcMapElem.add (d s : SrcMapElem) : SrcMapElem :=
  { from_ := add32 d.from_ s.from_, to_ := wrap32s (d.to_ + s.to_) }

/-- The in-place delta-conversion loop of `SrcMap::DeltaFormat`: for `i` from
`size()-1` down to `1`, entry `i` becomes entry `i` minus the (original) entry
`i-1`; finally entry `0` becomes entry `0` minus `start`. -/
def toDeltas (start : SrcMapElem) : List SrcMapElem → List SrcMapElem
  | [] => []
  | a :: rest => SrcMapElem.sub a start :: List.zipWith SrcMapElem.sub rest (a :: rest)

/-- `SrcMap::DeltaFormat(start, highest_pc)`: on a non-empty map, sort by
native offset, trim the trailing entries with `from_ >= highest_pc` (the first
entry is never dropped), and convert to consecutive deltas with the first entry
relative to `start`. An empty map is left unchanged. -/
def DeltaFormat (start : SrcMapElem) (highest_pc : Nat)
    (l : List SrcMapElem) : List SrcMapElem :=
  if l = [] then l
  else toDeltas start (trimHighest highest_pc (SortByFrom l))

/-- Prefix-summation from `start`: the inverse direction described by the spec,
reconstructing absolute entries by 32-bit addition of each delta to the
previously reconstructed entry (`start` for the first delta). -/
def fromDeltas (start : SrcMapElem) : List SrcMapElem → List SrcMapElem
  | [] => []
  | d :: rest => SrcMapElem.add d start :: fromDeltas (SrcMapElem.add d start) rest

/-- Helper for `uniq`: `a` is the currently retained element, compared with
each following element in turn; equal-key followers are skipped. -/
def uniqAux (a : SrcMapElem) : List SrcMapElem → List SrcMapElem
  | [] => [a]
  | b :: l => if a.key = b.key then uniqAux a l else a :: uniqAux b l

/-- `std::unique` over `SrcMapElem::operator==` (equality of combined keys):
remove consecutive duplicates, keeping the first element of each run. -/
def uniq : List SrcMapElem → List SrcMapElem
  | [] => []
  | a :: l => uniqAux a l

/-- `SrcMap::Arrange`: on a non-empty map, sort by `operator<` (the combined
source-line/native-offset key) and remove duplicates with `std::unique`;
an empty map is left unchanged. -/
def Arrange (l : List SrcMapElem) : List SrcMapElem :=
  if l = [] then l else uniq (l.insertionSort keyLe)

end SrcMap

/-- Modelled from the spec: the instruction-set tags of `instruction_set.h`
(that header is not among the provided sources); `optimizing_compiler.cc` uses
`kArm`, `kThumb2`, `kX86` and `kX86_64` by name. -/
inductive InstructionSet
  | kNone
  | kArm
  | kArm64
  | kThumb2
  | kX86
  | kX86_64
  | kMips
  | kMips64
deriving DecidableEq, Repr

/-- The instruction-set normalization at the top of
`OptimizingCompiler::TryCompile`: the Thumb2 assembler is always used in place
of ARM. -/
def normalizeIsa (isa : InstructionSet) : InstructionSet :=
  if isa = InstructionSet.kArm then InstructionSet.kThumb2 else isa

/-- Modelled from the spec: the frame/spill reports of the external code
generator (`code_generator.h` is not among the provided sources). `TryCompile`
reads `GetFrameSize()` and `GetCoreSpillMask()`; the floating-point callee-save
mask is never queried by it. -/
structure CodeGenInfo where
  frameSize : Nat
  coreSpillMask : Nat
  fpSpillMask : Nat
deriving DecidableEq, Repr

/-- The external inputs `OptimizingCompiler::TryCompile` consults: the driver's
instruction set, the outcomes of the external stages (graph building,
code-generator creation, the register allocator's capability checks
`CanAllocateRegistersFor` and `Supports`), and the two testing markers computed
from the method symbol (`00024opt_00024` giving `shouldCompile`,
`00024reg_00024` giving `shouldOptimize`). -/
structure CompileInputs where
  driverIsa : InstructionSet
  graphBuilds : Bool
  codegenAvailable : Bool
  codegen : CodeGenInfo
  canAllocateRegisters : Bool
  supportsIsa : Bool
  shouldCompile : Bool
  shouldOptimize : Bool
  includeDebugSymbols : Bool
deriving DecidableEq, Repr

/-- The fields of the `CompiledMethod` record built by
`CompiledMethod::SwapAllocCompiledMethod` that the claims are about:
the instruction-set tag, the frame size and the two spill masks. -/
structure CompiledMethodRec where
  instructionSet : InstructionSet
  frameSizeInBytes : Nat
  coreSpillMask : Nat
  fpSpillMask : Nat
deriving DecidableEq, Repr

/-- `CompiledMethod::GetFpSpillMask`: returns the stored `fp_spill_mask_`. -/
def CompiledMethodRec.GetFpSpillMask (m : CompiledMethodRec) : Nat :=
  m.fpSpillMask

/-- `CompiledMethod::GetCoreSpillMask`: returns the stored `core_spill_mask_`. -/
def CompiledMethodRec.GetCoreSpillMask (m : CompiledMethodRec) : Nat :=
  m.coreSpillMask

/-- `CompiledMethod::GetFrameSizeInBytes`: returns the stored
`frame_size_in_bytes_`. -/
def CompiledMethodRec.GetFrameSizeInBytes (m : CompiledMethodRec) : Nat :=
  m.frameSizeInBytes

/-- One `TryCompile` pipeline stage, recorded in the order the code runs it. -/
inductive Stage
  | buildGraph
  | createCodeGenerator
  | buildDominatorTree
  | transformToSSA
  | findNaturalLoops
  | redundantPhiElimination
  | deadPhiElimination
  | livenessAnalysis
  | registerAllocation
  | compileBaseline
  | compileOptimized
deriving DecidableEq, Repr

/-- The outcome of `OptimizingCompiler::TryCompile`: a compiled method, the
explicit not-compilable result (`nullptr`), or a `LOG(FATAL)` abort. -/
inductive TryCompileResult
  | notCompilable
  | fatalError (msg : String)
  | compiled (m : CompiledMethodRec)
deriving DecidableEq, Repr

/-- The record `TryCompile` hands to `SwapAllocCompiledMethod` on either
code-generation path: the normalized instruction set, the code generator's
frame size and core spill mask, and the literal `0` passed for the FPR spill
mask (commented `unused` in the source). -/
def emittedMethod (u : CompileInputs) (isa : InstructionSet) : CompiledMethodRec :=
  { instructionSet := isa
    frameSizeInBytes := u.codegen.frameSize
    coreSpillMask := u.codegen.coreSpillMask
    fpSpillMask := 0 }

/-- `OptimizingCompiler::TryCompile`, with the list of pipeline stages it runs
(in order) alongside the result. Mirrors the source: normalize ARM to Thumb2;
reject unsupported instruction sets; build the graph (fatal on failure only
under the `shouldCompile` marker); create the code generator (likewise); then
either the optimized path (dominator tree, SSA, loops, phi eliminations,
liveness, register allocation, optimized code generation), or a fatal error
when the `shouldOptimize` marker demands allocation the architecture supports,
or the baseline path (baseline code generation, then dominator tree, SSA,
loops and liveness run for test coverage). -/
def tryCompile (u : CompileInputs) : TryCompileResult × List Stage :=
  if normalizeIsa u.driverIsa ≠ InstructionSet.kX86 ∧
      normalizeIsa u.driverIsa ≠ InstructionSet.kX86_64 ∧
      normalizeIsa u.driverIsa ≠ InstructionSet.kThumb2 then
    (TryCompileResult.notCompilable, [])
  else if u.graphBuilds = false then
    (if u.shouldCompile then
       TryCompileResult.fatalError "Could not build graph in optimizing compiler"
     else TryCompileResult.notCompilable,
     [Stage.buildGraph])
  else if u.codegenAvailable = false then
    (if u.shouldCompile then
       TryCompileResult.fatalError "Could not find code generator for optimizing compiler"
     else TryCompileResult.notCompilable,
     [Stage.buildGraph, Stage.createCodeGenerator])
  else if u.canAllocateRegisters then
    (TryCompileResult.compiled (emittedMethod u (normalizeIsa u.driverIsa)),
     [Stage.buildGraph, Stage.createCodeGenerator, Stage.buildDominatorTree,
      Stage.transformToSSA, Stage.findNaturalLoops, Stage.redundantPhiElimination,
      Stage.deadPhiElimination, Stage.livenessAnalysis, Stage.registerAllocation,
      Stage.compileOptimized])
  else if u.shouldOptimize ∧ u.supportsIsa then
    (TryCompileResult.fatalError "Could not allocate registers in optimizing compiler",
     [Stage.buildGraph, Stage.createCodeGenerator])
  else
    (TryCompileResult.compiled (emittedMethod u (normalizeIsa u.driverIsa)),
     [Stage.buildGraph, Stage.createCodeGenerator, Stage.compileBaseline,
      Stage.buildDominatorTree, Stage.transformToSSA, Stage.findNaturalLoops,
      Stage.livenessAnalysis])

/-- The arguments of `OptimizingCompiler::Compile`: the `TryCompile` inputs plus
the delegate backend's result for the same arguments (the delegate, the Quick
compiler, is external; its `Compile` returns a possibly-null pointer). -/
structure CompileCall extends CompileInputs where
  delegateResult : Option CompiledMethodRec
deriving DecidableEq, Repr

/-- The outcome of `OptimizingCompiler::Compile`. -/
inductive CompileResult
  | method (m : CompiledMethodRec)
  | absent
  | fatalError (msg : String)
deriving DecidableEq, Repr

/-- View of the delegate backend's nullable pointer result as a
`CompileResult`. -/
def delegateToResult : Option CompiledMethodRec → CompileResult
  | some m => CompileResult.method m
  | none => CompileResult.absent

/-- `OptimizingCompiler::Compile`: run `TryCompile`; return its method when it
produced one, otherwise delegate to the fallback backend. The `Bool` records
whether the delegate was invoked. -/
def compile (c : CompileCall) : CompileResult × Bool :=
  match (tryCompile c.toCompileInputs).1 with
  | TryCompileResult.compiled m => (CompileResult.method m, false)
  | TryCompileResult.notCompilable => (delegateToResult c.delegateResult, true)
  | TryCompileResult.fatalError msg => (CompileResult.fatalError msg, false)

/-- The method of a `compiled` result, when there is one. -/
def resultMethod : TryCompileResult → Option CompiledMethodRec
  | TryCompileResult.compiled m => some m
  | _ => none

/-- A concrete baseline-path compilation: x86 target, graph and code generator
available, allocation capability check failing, no testing markers; the
external code generator reports frame size 16, core mask 3, FP mask 5. -/
def uBase : CompileInputs :=
  { driverIsa := InstructionSet.kX86
    graphBuilds := true
    codegenAvailable := true
    codegen := { frameSize := 16, coreSpillMask := 3, fpSpillMask := 5 }
    canAllocateRegisters := false
    supportsIsa := true
    shouldCompile := false
    shouldOptimize := false
    includeDebugSymbols := false }

/-- A concrete compilation request for an unsupported architecture (MIPS). -/
def uMips : CompileInputs :=
  { driverIsa := InstructionSet.kMips
    graphBuilds := true
    codegenAvailable := true
    codegen := { frameSize := 0, coreSpillMask := 0, fpSpillMask := 0 }
    canAllocateRegisters := true
    supportsIsa := false
    shouldCompile := false
    shouldOptimize := false
    includeDebugSymbols := false }

/-- A concrete compilation request targeting ARM with the optimized path
available. -/
def uArm : CompileInputs :=
  { driverIsa := InstructionSet.kArm
    graphBuilds := true
    codegenAvailable := true
    codegen := { frameSize := 8, coreSpillMask := 1, fpSpillMask := 0 }
    canAllocateRegisters := true
    supportsIsa := true
    shouldCompile := false
    shouldOptimize := false
    includeDebugSymbols := false }

/-- A concrete result the delegate (Quick) backend could return. -/
def mQuick : CompiledMethodRec :=
  { instructionSet := InstructionSet.kMips
    frameSizeInBytes := 8
    coreSpillMask := 1
    fpSpillMask := 2 }

/-- A concrete `Compile` call on an unsupported architecture whose delegate
backend succeeds. -/
def cMips : CompileCall :=
  { toCompileInputs := uMips, delegateResult := some mQuick }

theorem add32_sub32 (a b : Nat) (h : a < U32MOD) : add32 (sub32 a b) b = a := by
  unfold add32 sub32 U32MOD at *
  omega

theorem wrap32s_sub_add (a b : Int) (h1 : -U32HALF ≤ a) (h2 : a < U32HALF) :
    wrap32s (wrap32s (a - b) + b) = a := by
  unfold wrap32s U32HALF at *
  have hx : (a - b + 2147483648) % 4294967296 - 2147483648 + b + 2147483648
      = (a - b + 2147483648) % 4294967296 + b := by ring
  rw [hx, Int.emod_add_emod]
  have hy : a - b + 2147483648 + b = a + 2147483648 := by ring
  rw [hy, Int.emod_eq_of_lt (by omega) (by omega)]
  omega

namespace SrcMap

theorem add_sub_cancel_of_valid (e s : SrcMapElem) (h : e.Valid) :
    SrcMapElem.add (SrcMapElem.sub e s) s = e := by
  obtain ⟨h1, h2, h3⟩ := h
  cases e with
  | mk ef et =>
    simp only [SrcMapElem.add, SrcMapElem.sub, SrcMapElem.mk.injEq]
    exact ⟨add32_sub32 ef s.from_ h1, wrap32s_sub_add et s.to_ h2 h3⟩

theorem fromDeltas_zipWith : ∀ (l : List SrcMapElem) (prev : SrcMapElem),
    (∀ e ∈ l, SrcMapElem.Valid e) →
    fromDeltas prev (List.zipWith SrcMapElem.sub l (prev :: l)) = l
  | [], _, _ => rfl
  | b :: t, prev, h => by
    simp only [List.zipWith, fromDeltas]
    rw [add_sub_cancel_of_valid b prev (h b (List.mem_cons_self b t))]
    rw [fromDeltas_zipWith t b (fun e he => h e (List.mem_cons_of_mem b he))]

theorem fromDeltas_toDeltas (start : SrcMapElem) (m : List SrcMapElem)
    (h : ∀ e ∈ m, SrcMapElem.Valid e) :
    fromDeltas start (toDeltas start m) = m := by
  cases m with
  | nil => rfl
  | cons a rest =>
    unfold toDeltas
    simp only [fromDeltas]
    rw [add_sub_cancel_of_valid a start (h a (List.mem_cons_self a rest))]
    rw [fromDeltas_zipWith rest a (fun e he => h e (List.mem_cons_of_mem a he))]

theorem trimHighest_sublist (hp : Nat) : ∀ l : List SrcMapElem,
    (trimHighest hp l).Sublist l
  | [] => List.Sublist.refl _
  | a :: rest => by
    unfold trimHighest
    apply List.Sublist.cons₂
    have h1 : (rest.reverse.dropWhile fun e => decide (hp ≤ e.from_)).Sublist rest.reverse :=
      List.dropWhile_sublist _
    have h2 := h1.reverse
    rwa [List.reverse_reverse] at h2

theorem mem_sortByFrom {e : SrcMapElem} {l : List SrcMapElem}
    (h : e ∈ SortByFrom l) : e ∈ l :=
  (List.perm_insertionSort fromLe l).mem_iff.mp h

theorem sorted_sortByFrom (l : List SrcMapElem) :
    List.Sorted fromLe (SortByFrom l) :=
  List.sorted_insertionSort fromLe l

theorem sortByFrom_ne_nil {l : List SrcMapElem} (h : l ≠ []) :
    SortByFrom l ≠ [] := by
  intro hs
  apply h
  have := List.length_insertionSort fromLe l
  rw [show l.insertionSort fromLe = SortByFrom l from rfl, hs] at this
  exact List.length_eq_zero.mp this.symm

theorem uniqAux_cons_head : ∀ (l : List SrcMapElem) (a : SrcMapElem),
    ∃ t, uniqAux a l = a :: t
  | [], _ => ⟨[], rfl⟩
  | b :: l, a => by
    unfold uniqAux
    by_cases h : a.key = b.key
    · rw [if_pos h]
      exact uniqAux_cons_head l a
    · rw [if_neg h]
      exact ⟨uniqAux b l, rfl⟩

theorem uniqAux_chain' : ∀ (l : List SrcMapElem) (a : SrcMapElem),
    List.Sorted keyLe (a :: l) → List.Chain' keyLt (uniqAux a l)
  | [], a, _ => List.chain'_singleton a
  | b :: l, a, h => by
    unfold uniqAux
    have ha : keyLe a b := List.rel_of_sorted_cons h b (List.mem_cons_self b l)
    by_cases hk : a.key = b.key
    · rw [if_pos hk]
      apply uniqAux_chain' l a
      exact List.sorted_cons.mpr
        ⟨fun c hc => List.rel_of_sorted_cons h c (List.mem_cons_of_mem b hc), h.tail.tail⟩
    · rw [if_neg hk]
      obtain ⟨t, ht⟩ := uniqAux_cons_head l b
      rw [ht]
      exact List.chain'_cons.mpr ⟨lt_of_le_of_ne ha hk, ht ▸ uniqAux_chain' l b h.tail⟩

theorem uniqAux_eq_self : ∀ (l : List SrcMapElem) (a : SrcMapElem),
    List.Chain' keyLt (a :: l) → uniqAux a l = a :: l
  | [], _, _ => rfl
  | b :: l, a, h => by
    unfold uniqAux
    have hlt : keyLt a b := (List.chain'_cons.mp h).1
    rw [if_neg (ne_of_lt hlt), uniqAux_eq_self l b (List.chain'_cons.mp h).2]

theorem arrange_chain' (l : List SrcMapElem) : List.Chain' keyLt (Arrange l) := by
  unfold Arrange
  by_cases h : l = []
  · rw [if_pos h]
    rw [h]
    exact List.chain'_nil
  · rw [if_neg h]
    cases hs : l.insertionSort keyLe with
    | nil =>
        exfalso
        apply h
        have hlen := List.length_insertionSort keyLe l
        rw [hs] at hlen
        exact List.length_eq_zero.mp hlen.symm
    | cons a t =>
        have hsorted : List.Sorted keyLe (a :: t) := hs ▸ List.sorted_insertionSort keyLe l
        exact uniqAux_chain' t a hsorted

theorem arrange_pairwise_lt (l : List SrcMapElem) :
    List.Pairwise keyLt (Arrange l) :=
  List.chain'_iff_pairwise.mp (arrange_chain' l)

theorem arrange_eq_self (m : List SrcMapElem) (hs : List.Sorted keyLe m)
    (hc : List.Chain' keyLt m) : Arrange m = m := by
  unfold Arrange
  cases m with
  | nil => rw [if_pos rfl]
  | cons a t =>
    rw [if_neg (by simp), hs.insertionSort_eq]
    exact uniqAux_eq_self t a hc

theorem arrange_idem (l : List SrcMapElem) : Arrange (Arrange l) = Arrange l :=
  arrange_eq_self (Arrange l)
    ((arrange_pairwise_lt l).imp fun h => le_of_lt h)
    (arrange_chain' l)

theorem revDrop_eq_takeWhile (hp : Nat) : ∀ t : List SrcMapElem,
    List.Sorted fromLe t →
    (t.reverse.dropWhile fun e => decide (hp ≤ e.from_)).reverse =
      t.takeWhile fun e => decide (e.from_ < hp)
  | [], _ => rfl
  | a :: t, h => by
    rw [List.reverse_cons, List.dropWhile_append]
    by_cases ha : a.from_ < hp
    · by_cases hd : (t.reverse.dropWhile fun e => decide (hp ≤ e.from_)) = []
      · rw [hd]
        simp only [List.isEmpty_nil, if_true]
        have hallq : ∀ e ∈ t, hp ≤ e.from_ := by
          intro e he
          have := (List.dropWhile_eq_nil_iff.mp hd) e (by simpa using he)
          simpa using this
        rw [List.dropWhile_cons_of_neg (by simp [ha])]
        cases t with
        | nil => simp [List.takeWhile_cons, ha]
        | cons b t' =>
            have hb : hp ≤ b.from_ := hallq b (List.mem_cons_self b t')
            simp [List.takeWhile_cons, ha, Nat.not_lt.mpr hb]
      · rw [if_neg (by simpa [List.isEmpty_iff] using hd)]
        rw [List.reverse_append, List.reverse_cons, List.reverse_nil, List.nil_append]
        rw [revDrop_eq_takeWhile hp t h.tail]
        simp [List.takeWhile_cons, ha]
    · have hall : ∀ e ∈ t, hp ≤ e.from_ := by
        intro e he
        exact le_trans (Nat.not_lt.mp ha) (List.rel_of_sorted_cons h e he)
      have hd : (t.reverse.dropWhile fun e => decide (hp ≤ e.from_)) = [] := by
        rw [List.dropWhile_eq_nil_iff]
        intro e he
        simpa using hall e (by simpa using he)
      rw [hd]
      simp only [List.isEmpty_nil, if_true]
      rw [List.dropWhile_cons_of_pos (by simpa using Nat.not_lt.mp ha), List.dropWhile_nil]
      simp [List.takeWhile_cons, ha]

theorem trimHighest_eq_of_sorted (hp : Nat) (s : List SrcMapElem)
    (hs : List.Sorted fromLe s) :
    trimHighest hp s =
      if s.takeWhile (fun e => decide (e.from_ < hp)) = []
      then s.take 1
      else s.takeWhile fun e => decide (e.from_ < hp) := by
  cases s with
  | nil => rfl
  | cons a rest =>
    show a :: (rest.reverse.dropWhile fun e => decide (hp ≤ e.from_)).reverse = _
    rw [revDrop_eq_takeWhile hp rest hs.tail]
    by_cases ha : a.from_ < hp
    · rw [if_neg (by simp [List.takeWhile_cons, ha])]
      simp [List.takeWhile_cons, ha]
    · have hrest : (rest.takeWhile fun e => decide (e.from_ < hp)) = [] := by
        cases rest with
        | nil => rfl
        | cons b t =>
            have hb : hp ≤ b.from_ :=
              le_trans (Nat.not_lt.mp ha) (List.rel_of_sorted_cons hs b (List.mem_cons_self b t))
            simp [List.takeWhile_cons, Nat.not_lt.mpr hb]
      rw [hrest]
      rw [if_pos (by simp [List.takeWhile_cons, ha])]
      simp

end SrcMap

theorem headI_min_sortByFrom (l : List SrcMapElem) (e : SrcMapElem) (he : e ∈ l) :
    ((SrcMap.SortByFrom l).headI).from_ ≤ e.from_ := by
  have hes : e ∈ SrcMap.SortByFrom l := (List.perm_insertionSort fromLe l).mem_iff.mpr he
  cases hs : SrcMap.SortByFrom l with
  | nil => rw [hs] at hes; cases hes
  | cons a rest =>
    rw [hs] at hes
    have hsorted : List.Sorted fromLe (a :: rest) := hs ▸ SrcMap.sorted_sortByFrom l
    rcases List.mem_cons.mp hes with h | h
    · rw [h]
      exact le_refl _
    · exact List.rel_of_sorted_cons hsorted e h

/-- C1: For every non-empty source map whose first entry (after sorting by
native offset and trimming at `highest_pc`) has native offset at least
`start`'s, `DeltaFormat(start, highest_pc)` followed by prefix-summation from
`start` (32-bit addition of each delta to the previously reconstructed entry,
`start` for the first) yields exactly the native-offset-sorted,
`highest_pc`-trimmed input sequence. -/
theorem deltaFormat_prefixSum_roundTrip (l : List SrcMapElem) (start : SrcMapElem)
    (highest_pc : Nat) (hv : ∀ e ∈ l, SrcMapElem.Valid e) (hne : l ≠ [])
    (hfirst : start.from_ ≤
      ((SrcMap.trimHighest highest_pc (SrcMap.SortByFrom l)).headI).from_) :
    SrcMap.fromDeltas start (SrcMap.DeltaFormat start highest_pc l) =
      SrcMap.trimHighest highest_pc (SrcMap.SortByFrom l) := by
  unfold SrcMap.DeltaFormat
  rw [if_neg hne]
  apply SrcMap.fromDeltas_toDeltas
  intro e he
  exact hv e (SrcMap.mem_sortByFrom
    ((SrcMap.trimHighest_sublist highest_pc _).subset he))

/-- C1 witness: the round trip evaluated on the concrete scenario-E map. -/
theorem deltaFormat_prefixSum_roundTrip_witness :
    SrcMap.fromDeltas ⟨10, 2⟩
        (SrcMap.DeltaFormat ⟨10, 2⟩ 25 [⟨30, 5⟩, ⟨10, 2⟩, ⟨20, 2⟩]) =
      SrcMap.trimHighest 25 (SrcMap.SortByFrom [⟨30, 5⟩, ⟨10, 2⟩, ⟨20, 2⟩]) :=
  deltaFormat_prefixSum_roundTrip [⟨30, 5⟩, ⟨10, 2⟩, ⟨20, 2⟩] ⟨10, 2⟩ 25
    (by decide) (by decide) (by decide)

/-- C2 counterexample: on the one-entry map [(5,1)] with highest_pc = 3 the
trimming step of DeltaFormat keeps the entry although its native offset 5 is
at least 3, so the result is not the prefix of entries below the threshold and
an entry with native offset at least highest_pc remains. -/
theorem trim_retains_first_counterexample :
    SrcMap.trimHighest 3 (SrcMap.SortByFrom [(⟨5, 1⟩ : SrcMapElem)]) = [⟨5, 1⟩] ∧
      ¬ (∀ e ∈ SrcMap.trimHighest 3 (SrcMap.SortByFrom [(⟨5, 1⟩ : SrcMapElem)]),
          e.from_ < 3) := by
  decide

/-- C2 (amended): DeltaFormat first sorts by native offset ascending, then
keeps exactly the prefix up to and including the last entry with native offset
below highest_pc when at least one entry is below the threshold, and otherwise
keeps exactly the first (smallest-offset) entry; hence no entry other than a
retained first entry has native offset at least highest_pc. -/
theorem trim_spec (l : List SrcMapElem) (highest_pc : Nat) :
    SrcMap.trimHighest highest_pc (SrcMap.SortByFrom l) =
      if (SrcMap.SortByFrom l).takeWhile (fun e => decide (e.from_ < highest_pc)) = []
      then (SrcMap.SortByFrom l).take 1
      else (SrcMap.SortByFrom l).takeWhile fun e => decide (e.from_ < highest_pc) :=
  SrcMap.trimHighest_eq_of_sorted highest_pc _ (SrcMap.sorted_sortByFrom l)

/-- C3: Arrange is idempotent, its result is sorted by the combined 64-bit key
(source line primary, native offset secondary), and it contains no duplicate
(native offset, source line) pairs. -/
theorem arrange_spec (l : List SrcMapElem) :
    SrcMap.Arrange (SrcMap.Arrange l) = SrcMap.Arrange l ∧
      List.Pairwise keyLt (SrcMap.Arrange l) ∧
      List.Pairwise (fun a b => a ≠ b) (SrcMap.Arrange l) := by
  refine ⟨SrcMap.arrange_idem l, SrcMap.arrange_pairwise_lt l, ?_⟩
  refine (SrcMap.arrange_pairwise_lt l).imp ?_
  intro a b h heq
  rw [heq] at h
  exact lt_irrefl _ h

/-- C8: Scenario E — on the source map [(30,5),(10,2),(20,2)] with
start = (10,2) and highest_pc = 25, the trim drops the (30,5) entry, the sort
leaves [(10,2),(20,2)], and DeltaFormat produces deltas [(0,0),(10,0)]. -/
theorem deltaFormat_scenarioE :
    SrcMap.trimHighest 25 (SrcMap.SortByFrom [⟨30, 5⟩, ⟨10, 2⟩, ⟨20, 2⟩]) =
        [⟨10, 2⟩, ⟨20, 2⟩] ∧
      SrcMap.DeltaFormat ⟨10, 2⟩ 25 [⟨30, 5⟩, ⟨10, 2⟩, ⟨20, 2⟩] =
        [⟨0, 0⟩, ⟨10, 0⟩] := by
  decide

/-- C9: DeltaFormat never empties a non-empty source map: the trim keeps the
sorted sequence's first entry (the one with the smallest native offset) even
when every entry's native offset is at least highest_pc. -/
theorem deltaFormat_nonempty (l : List SrcMapElem) (start : SrcMapElem)
    (highest_pc : Nat) (hne : l ≠ []) :
    SrcMap.DeltaFormat start highest_pc l ≠ [] ∧
      SrcMap.trimHighest highest_pc (SrcMap.SortByFrom l) ≠ [] ∧
      (SrcMap.trimHighest highest_pc (SrcMap.SortByFrom l)).headI =
        (SrcMap.SortByFrom l).headI ∧
      ∀ e ∈ l, ((SrcMap.SortByFrom l).headI).from_ ≤ e.from_ := by
  cases hs : SrcMap.SortByFrom l with
  | nil => exact absurd hs (SrcMap.sortByFrom_ne_nil hne)
  | cons a rest =>
      refine ⟨?_, ?_, ?_, fun e he => hs ▸ headI_min_sortByFrom l e he⟩
      · unfold SrcMap.DeltaFormat
        rw [if_neg hne, hs]
        simp [SrcMap.trimHighest, SrcMap.toDeltas]
      · simp [SrcMap.trimHighest]
      · simp [SrcMap.trimHighest]

/-- C9 witness: a map whose only entry has native offset at least highest_pc is
still kept. -/
theorem deltaFormat_nonempty_witness :
    SrcMap.DeltaFormat ⟨0, 0⟩ 3 [(⟨5, 1⟩ : SrcMapElem)] ≠ [] ∧
      SrcMap.trimHighest 3 (SrcMap.SortByFrom [(⟨5, 1⟩ : SrcMapElem)]) ≠ [] ∧
      (SrcMap.trimHighest 3 (SrcMap.SortByFrom [(⟨5, 1⟩ : SrcMapElem)])).headI =
        (SrcMap.SortByFrom [(⟨5, 1⟩ : SrcMapElem)]).headI ∧
      ∀ e ∈ [(⟨5, 1⟩ : SrcMapElem)],
        ((SrcMap.SortByFrom [(⟨5, 1⟩ : SrcMapElem)]).headI).from_ ≤ e.from_ :=
  deltaFormat_nonempty [⟨5, 1⟩] ⟨0, 0⟩ 3 (by decide)

theorem tryCompile_compiled_eq (u : CompileInputs) (m : CompiledMethodRec)
    (h : (tryCompile u).1 = TryCompileResult.compiled m) :
    m = emittedMethod u (normalizeIsa u.driverIsa) := by
  unfold tryCompile at h
  repeat' split at h
  all_goals simp_all

/-- C6: For every compilation request whose normalized instruction set is none
of x86, x86_64 or Thumb2, TryCompile returns the explicit not-compilable result
with no fault raised, no graph built and no pipeline stage run. -/
theorem tryCompile_unsupported_isa (u : CompileInputs)
    (h : normalizeIsa u.driverIsa ≠ InstructionSet.kX86 ∧
         normalizeIsa u.driverIsa ≠ InstructionSet.kX86_64 ∧
         normalizeIsa u.driverIsa ≠ InstructionSet.kThumb2) :
    tryCompile u = (TryCompileResult.notCompilable, []) := by
  unfold tryCompile
  rw [if_pos h]

/-- C6 witness: a MIPS-targeted request is rejected with no stage run. -/
theorem tryCompile_unsupported_isa_witness :
    tryCompile uMips = (TryCompileResult.notCompilable, []) :=
  tryCompile_unsupported_isa uMips (by decide)

/-- C4 counterexample: with the allocation capability check failing and no
forced-optimize marker set, the baseline path still runs the dominator-tree,
SSA-conversion, loop-finding and liveness stages (after baseline code
generation), so the claim that those stages are not run fails. -/
theorem baseline_runs_analyses_counterexample :
    uBase.canAllocateRegisters = false ∧ uBase.shouldOptimize = false ∧
      Stage.compileBaseline ∈ (tryCompile uBase).2 ∧
      Stage.buildDominatorTree ∈ (tryCompile uBase).2 ∧
      Stage.transformToSSA ∈ (tryCompile uBase).2 ∧
      Stage.findNaturalLoops ∈ (tryCompile uBase).2 ∧
      Stage.livenessAnalysis ∈ (tryCompile uBase).2 := by
  decide

/-- C4 (amended): under a supported instruction set with the graph built and a
code generator available, when the register allocator's capability check
reports that allocation is not supported and no forced-optimize marker is set,
TryCompile takes the baseline path: baseline code generation runs directly from
the CFG before any analysis stage, register allocation and optimized code
generation never run, and the dominator-tree, SSA-conversion, loop-finding and
liveness stages are run afterwards for test coverage. -/
theorem tryCompile_baseline_path (u : CompileInputs)
    (hisa : normalizeIsa u.driverIsa = InstructionSet.kX86 ∨
            normalizeIsa u.driverIsa = InstructionSet.kX86_64 ∨
            normalizeIsa u.driverIsa = InstructionSet.kThumb2)
    (hg : u.graphBuilds = true) (hc : u.codegenAvailable = true)
    (halloc : u.canAllocateRegisters = false) (hopt : u.shouldOptimize = false) :
    tryCompile u =
      (TryCompileResult.compiled (emittedMethod u (normalizeIsa u.driverIsa)),
       [Stage.buildGraph, Stage.createCodeGenerator, Stage.compileBaseline,
        Stage.buildDominatorTree, Stage.transformToSSA, Stage.findNaturalLoops,
        Stage.livenessAnalysis]) ∧
      Stage.registerAllocation ∉ (tryCompile u).2 ∧
      Stage.compileOptimized ∉ (tryCompile u).2 := by
  have hcond : ¬(normalizeIsa u.driverIsa ≠ InstructionSet.kX86 ∧
      normalizeIsa u.driverIsa ≠ InstructionSet.kX86_64 ∧
      normalizeIsa u.driverIsa ≠ InstructionSet.kThumb2) := by
    rcases hisa with h | h | h <;> simp [h]
  have heq : tryCompile u =
      (TryCompileResult.compiled (emittedMethod u (normalizeIsa u.driverIsa)),
       [Stage.buildGraph, Stage.createCodeGenerator, Stage.compileBaseline,
        Stage.buildDominatorTree, Stage.transformToSSA, Stage.findNaturalLoops,
        Stage.livenessAnalysis]) := by
    unfold tryCompile
    rw [if_neg hcond]
    simp [hg, hc, halloc, hopt]
  refine ⟨heq, ?_, ?_⟩ <;> rw [heq] <;> simp

/-- C4 witness: the baseline path evaluated on the concrete x86 request. -/
theorem tryCompile_baseline_path_witness :
    tryCompile uBase =
      (TryCompileResult.compiled (emittedMethod uBase (normalizeIsa uBase.driverIsa)),
       [Stage.buildGraph, Stage.createCodeGenerator, Stage.compileBaseline,
        Stage.buildDominatorTree, Stage.transformToSSA, Stage.findNaturalLoops,
        Stage.livenessAnalysis]) ∧
      Stage.registerAllocation ∉ (tryCompile uBase).2 ∧
      Stage.compileOptimized ∉ (tryCompile uBase).2 :=
  tryCompile_baseline_path uBase (by decide) rfl rfl rfl rfl

/-- C5: Compile never drops a method: when TryCompile returns the
not-compilable result, Compile returns exactly the delegate backend's result on
the same arguments (invoking the delegate), and when TryCompile produces a
method, Compile returns it without invoking the delegate. -/
theorem compile_delegation (c : CompileCall) :
    ((tryCompile c.toCompileInputs).1 = TryCompileResult.notCompilable →
        compile c = (delegateToResult c.delegateResult, true)) ∧
      ∀ m : CompiledMethodRec,
        (tryCompile c.toCompileInputs).1 = TryCompileResult.compiled m →
          compile c = (CompileResult.method m, false) := by
  constructor
  · intro h
    unfold compile
    rw [h]
  · intro m h
    unfold compile
    rw [h]

/-- C5 witness: on the unsupported-architecture request the delegate's method
is returned. -/
theorem compile_delegation_witness :
    compile cMips = (delegateToResult cMips.delegateResult, true) :=
  (compile_delegation cMips).1 (by decide)

/-- C7 counterexample: a successful compilation whose external code generator
reports floating-point callee-save mask 5 still stores 0 in the record's
floating-point spill mask, so the accessor does not return the code generator's
floating-point mask. -/
theorem fpSpillMask_counterexample :
    (resultMethod (tryCompile uBase).1).map CompiledMethodRec.GetFpSpillMask =
        some 0 ∧
      uBase.codegen.fpSpillMask = 5 := by
  decide

/-- C7 (amended): every successful compilation, baseline or optimized, carries
the code generator's frame size and core callee-save spill mask, but its
floating-point spill mask is the literal 0 the source passes (commented
"FPR spill mask, unused"), not the code generator's floating-point mask. -/
theorem compiledMethod_frame_and_masks (u : CompileInputs) (m : CompiledMethodRec)
    (h : (tryCompile u).1 = TryCompileResult.compiled m) :
    m.GetFrameSizeInBytes = u.codegen.frameSize ∧
      m.GetCoreSpillMask = u.codegen.coreSpillMask ∧
      m.GetFpSpillMask = 0 := by
  rw [tryCompile_compiled_eq u m h]
  exact ⟨rfl, rfl, rfl⟩

/-- C7 witness: the frame size and masks evaluated on the concrete x86
request. -/
theorem compiledMethod_frame_and_masks_witness :
    (emittedMethod uBase (normalizeIsa uBase.driverIsa)).GetFrameSizeInBytes =
        uBase.codegen.frameSize ∧
      (emittedMethod uBase (normalizeIsa uBase.driverIsa)).GetCoreSpillMask =
        uBase.codegen.coreSpillMask ∧
      (emittedMethod uBase (normalizeIsa uBase.driverIsa)).GetFpSpillMask = 0 :=
  compiledMethod_frame_and_masks uBase
    (emittedMethod uBase (normalizeIsa uBase.driverIsa)) (by decide)

/-- C10: ARM is normalized to Thumb2 before any other processing, so a
compiled method produced by TryCompile carries the normalized tag, never the
ARM tag, and an ARM-targeted request yields the Thumb2 tag. -/
theorem compiled_isa_never_arm (u : CompileInputs) (m : CompiledMethodRec)
    (h : (tryCompile u).1 = TryCompileResult.compiled m) :
    m.instructionSet = normalizeIsa u.driverIsa ∧
      m.instructionSet ≠ InstructionSet.kArm ∧
      (u.driverIsa = InstructionSet.kArm →
        m.instructionSet = InstructionSet.kThumb2) := by
  rw [tryCompile_compiled_eq u m h]
  refine ⟨rfl, ?_, ?_⟩
  · show normalizeIsa u.driverIsa ≠ InstructionSet.kArm
    cases h2 : u.driverIsa <;> simp [normalizeIsa, h2]
  · intro harm
    show normalizeIsa u.driverIsa = InstructionSet.kThumb2
    simp [normalizeIsa, harm]

/-- C10 witness: the ARM-targeted request compiles to a Thumb2-tagged
method. -/
theorem compiled_isa_never_arm_witness :
    (emittedMethod uArm (normalizeIsa uArm.driverIsa)).instructionSet =
        normalizeIsa uArm.driverIsa ∧
      (emittedMethod uArm (normalizeIsa uArm.driverIsa)).instructionSet ≠
        InstructionSet.kArm ∧
      (uArm.driverIsa = InstructionSet.kArm →
        (emittedMethod uArm (normalizeIsa uArm.driverIsa)).instructionSet =
          InstructionSet.kThumb2) :=
  compiled_isa_never_arm uArm (emittedMethod uArm (normalizeIsa uArm.driverIsa))
    (by decide)
